import Mathlib

/-!
Verification of `src/Piorun5.1.py` (Piorun 5.1, a Qt document generator).

Shallow embedding notes:
* Qt text fields and Python strings are modelled as Lean `String`
  (`Str`, `Path` below).
* Python byte strings are `List Nat` with every element `< 256`.
* Python's `str(i)` / `int(k)` on decimal numerals are modelled as the
  list of decimal digits, most significant first (`pyStr` / `pyInt`);
  a digit list is isomorphic to the corresponding digit string.
* `base64.b64encode` / `b64decode` are modelled at the level of 6-bit
  groups (`b64encode` / `b64decode` produce the list of sextet values);
  the sextet list is isomorphic to the base64 character string, whose
  `=` padding is determined by the length of the final group.
* Python dicts are association lists looked up by first matching key
  (`dictLookup`, `dictFindD`); dicts built by the program never repeat
  a key, so first-match lookup agrees with dict semantics.
* The file system is an explicit read function `Path → Option Bytes`
  (`none` models a missing/unreadable file, i.e. an `IOError`).
-/

namespace Piorun

abbrev Str := String
abbrev Path := String
abbrev Bytes := List Nat

/-- One step's metadata: `{'nazwa': ..., 'opis': ...}` as stored in
`GeneratorDokumentow.opisy_krokow`. -/
structure Opis where
  nazwa : Str
  opis : Str
deriving DecidableEq, Repr

/-- Python dict lookup (`d[k]` / `k in d`) on an association list with
`Nat` keys; first matching entry wins. -/
def dictLookup (d : List (Nat × Opis)) (k : Nat) : Option Opis :=
  (d.find? (fun e => e.1 == k)).map Prod.snd

/-- Python `del d[k]` on an association list with `Nat` keys. -/
def delKey (d : List (Nat × Opis)) (k : Nat) : List (Nat × Opis) :=
  d.filter (fun e => e.1 != k)

/-- Python `str(n)` for a nonnegative integer, as the list of decimal
digits, most significant first. -/
def pyStr (n : Nat) : List Nat :=
  (Nat.digits 10 n).reverse

/-- Python `int(s)` on a decimal digit string, as a function on digit
lists (most significant first). -/
def pyInt (s : List Nat) : Nat :=
  Nat.ofDigits 10 s.reverse

theorem pyInt_pyStr (n : Nat) : pyInt (pyStr n) = n := by
  simp [pyInt, pyStr, Nat.ofDigits_digits]

theorem pyStr_injective {m n : Nat} (h : pyStr m = pyStr n) : m = n := by
  have := congrArg pyInt h
  simpa [pyInt_pyStr] using this

/-- `base64.b64encode` on a byte list, producing the list of 6-bit
group values (each `< 64` for byte inputs). -/
def b64encode : Bytes → List Nat
  | a :: b :: c :: rest =>
      a / 4 :: ((a % 4) * 16 + b / 16) :: ((b % 16) * 4 + c / 64) :: c % 64 ::
        b64encode rest
  | [a, b] => [a / 4, (a % 4) * 16 + b / 16, (b % 16) * 4]
  | [a] => [a / 4, (a % 4) * 16]
  | [] => []

/-- `base64.b64decode`, inverse direction: consume 6-bit group values
four at a time (the final group of 2 or 3 values carries 1 or 2 bytes,
matching the `=` padding of the character form). -/
def b64decode : List Nat → Bytes
  | w :: x :: y :: z :: rest =>
      (w * 4 + x / 16) :: ((x % 16) * 16 + y / 4) :: ((y % 4) * 64 + z) ::
        b64decode rest
  | [w, x, y] => [w * 4 + x / 16, (x % 16) * 16 + y / 4]
  | [w, x] => [w * 4 + x / 16]
  | _ => []

theorem b64decode_b64encode :
    ∀ bs : Bytes, (∀ b ∈ bs, b < 256) → b64decode (b64encode bs) = bs := by
  intro bs
  induction bs using b64encode.induct with
  | case1 a b c rest ih =>
    intro h
    have ha : a < 256 := h a (by simp)
    have hb : b < 256 := h b (by simp)
    have hc : c < 256 := h c (by simp)
    have hrest : ∀ x ∈ rest, x < 256 := fun x hx => h x (by simp [hx])
    have hr := ih hrest
    simp only [b64encode, b64decode, List.cons.injEq]
    exact ⟨by omega, by omega, by omega, hr⟩
  | case2 a b =>
    intro h
    have ha : a < 256 := h a (by simp)
    have hb : b < 256 := h b (by simp)
    simp only [b64encode, b64decode, List.cons.injEq]
    exact ⟨by omega, by omega, trivial⟩
  | case3 a =>
    intro h
    have ha : a < 256 := h a (by simp)
    simp only [b64encode, b64decode, List.cons.injEq]
    exact ⟨by omega, trivial⟩
  | case4 =>
    intro _
    simp [b64encode, b64decode]

/-! ## Application state and the snapshot history

`GeneratorDokumentow.__init__` (lines 210-246): the mutable state is the
illustration path list, the step-description dict, the selected step,
the four metadata line edits, the four formatting combo boxes, the
language and the theme flag.  The history is `stan_historia` (a list)
with cursor `aktualny_stan_index` (initially `-1`) and capacity
`maks_historia = 20`. -/

/-- The dict pushed by `zapisz_stan` (lines 966-984): exactly the keys
`ilustracje`, `opisy_krokow`, `aktualny_wybrany_krok`, `kod`, `nazwa`,
`data`, `autor`. -/
structure Snap where
  ilustracje : List Path
  opisy : List (Nat × Opis)
  wybrany : Option Nat
  kod : Str
  nazwa : Str
  dataP : Str
  autor : Str
deriving DecidableEq, Repr

/-- The live mutable state of `GeneratorDokumentow`: the fields of
`Snap` plus the formatting combo boxes (`layout_combo.currentData()`,
`size_combo`/`font_combo`/`font_size_combo.currentText()`), the
language and the theme flag.  `.copy()`/`copy.deepcopy` on Python
lists/dicts are the identity on these immutable Lean values. -/
structure Live where
  ilustracje : List Path
  opisy : List (Nat × Opis)
  wybrany : Option Nat
  kod : Str
  nazwa : Str
  dataP : Str
  autor : Str
  uklad : Str
  rozmiar : Str
  czcionka : Str
  rozmiarCzcionki : Str
  jezyk : Str
  darkTheme : Bool
deriving DecidableEq, Repr

/-- Live state plus the undo history (`stan_historia`,
`aktualny_stan_index`). -/
structure App where
  live : Live
  historia : List Snap
  index : Int
deriving DecidableEq, Repr

def maksHistoria : Nat := 20

/-- The snapshot dict built at the top of `zapisz_stan`. -/
def snapshot (l : Live) : Snap :=
  { ilustracje := l.ilustracje
    opisy := l.opisy
    wybrany := l.wybrany
    kod := l.kod
    nazwa := l.nazwa
    dataP := l.dataP
    autor := l.autor }

/-- `zapisz_stan` (lines 966-984): when the history is at capacity,
`pop(0)` the oldest entry (the code also decrements the cursor there,
but that write is dead: the cursor is unconditionally set to the last
position right after the append). -/
def zapisz_stan (app : App) : App :=
  let stan := snapshot app.live
  let histPo :=
    if app.historia.length ≥ maksHistoria then app.historia.drop 1
    else app.historia
  let hist := histPo ++ [stan]
  { app with historia := hist, index := (hist.length : Int) - 1 }

/-- Restoring a snapshot into the live state: the assignments shared by
`cofnij` and `przywroc` (lines 992-998 and 1012-1018).  Only the seven
snapshotted fields are written; formatting, language and theme keep
their current values. -/
def wczytajStan (l : Live) (s : Snap) : Live :=
  { l with
    ilustracje := s.ilustracje
    opisy := s.opisy
    wybrany := s.wybrany
    kod := s.kod
    nazwa := s.nazwa
    dataP := s.dataP
    autor := s.autor }

/-- `cofnij` (lines 986-1004).  The guarded list access
`stan_historia[aktualny_stan_index]` is in range in every reachable
state (cursor between `0` and `len - 1`); the `none` branch mirrors the
(unreachable) `IndexError`. -/
def cofnij (app : App) : App :=
  if app.index > 0 then
    let i := app.index - 1
    match app.historia[i.toNat]? with
    | some stan => { app with index := i, live := wczytajStan app.live stan }
    | none => app
  else app

/-- `przywroc` (lines 1006-1024). -/
def przywroc (app : App) : App :=
  if app.index < (app.historia.length : Int) - 1 then
    let i := app.index + 1
    match app.historia[i.toNat]? with
    | some stan => { app with index := i, live := wczytajStan app.live stan }
    | none => app
  else app

/-- The fresh controller of `__init__`: empty history, cursor `-1`,
followed by the initial `zapisz_stan()` call (line 245). -/
def initApp (l : Live) : App :=
  zapisz_stan { live := l, historia := [], index := -1 }

/-- The push-then-mutate pattern shared by every snapshotting operation
(`usun_ilustracje`, `przenies_w_gore/dol`, `zapisz_opis`,
`wyczysc_wszystko`, ...): `zapisz_stan()` first, then the mutation of
the live state. -/
def operacja (m : Live → Live) (app : App) : App :=
  let app1 := zapisz_stan app
  { app1 with live := m app1.live }

/-- A user edit of the live state that does not go through
`zapisz_stan` (e.g. changing the layout combo box, which is connected
to no history push). -/
def mutacjaLive (m : Live → Live) (app : App) : App :=
  { app with live := m app.live }

/-- Changing the layout combo box to value `u` (the combo's
`currentData()` becomes `u`; no `zapisz_stan` call is wired to it). -/
def ustawUklad (u : Str) (app : App) : App :=
  mutacjaLive (fun l => { l with uklad := u }) app

/-- The data mutation of `usun_ilustracje` (lines 1263-1311) for
selected row `k`: pop the `k`-th illustration, `del` the description at
key `k`, then rebuild the description dict over the new index range,
shifting keys `> k` down by one.  Widget refresh and the follow-up
selection change (which go through Qt signal handlers) are omitted;
they do not touch these two collections. -/
def usunMutacja (k : Nat) (l : Live) : Live :=
  let il :=
    if k < l.ilustracje.length then l.ilustracje.eraseIdx k
    else l.ilustracje
  let opisyPoDel := delKey l.opisy k
  let nowe :=
    (List.range il.length).filterMap (fun i =>
      (dictLookup opisyPoDel (if k ≤ i then i + 1 else i)).map
        (fun v => (i, v)))
  { l with ilustracje := il, opisy := nowe }

/-- `usun_ilustracje` as a whole: early return when no row is selected
(`currentRow() < 0`), otherwise push a snapshot and mutate. -/
def usun_ilustracje (row : Int) (app : App) : App :=
  if row < 0 then app
  else operacja (usunMutacja row.toNat) app

/-- The operations that touch the history, for reasoning about
arbitrary operation sequences. -/
inductive Op where
  | operacjaOp (m : Live → Live) : Op
  | cofnijOp : Op
  | przywrocOp : Op

def applyOp : Op → App → App
  | .operacjaOp m => operacja m
  | .cofnijOp => cofnij
  | .przywrocOp => przywroc

def applyOps (ops : List Op) (app : App) : App :=
  ops.foldl (fun a o => applyOp o a) app

theorem length_zapisz_stan_le (app : App) (h : app.historia.length ≤ 20) :
    (zapisz_stan app).historia.length ≤ 20 := by
  simp only [zapisz_stan, maksHistoria]
  split
  · simp only [List.length_append, List.length_drop, List.length_cons,
      List.length_nil]
    omega
  · simp only [List.length_append, List.length_cons, List.length_nil]
    omega

theorem historia_cofnij (app : App) : (cofnij app).historia = app.historia := by
  simp only [cofnij]
  split
  · split <;> rfl
  · rfl

theorem historia_przywroc (app : App) :
    (przywroc app).historia = app.historia := by
  simp only [przywroc]
  split
  · split <;> rfl
  · rfl

theorem length_applyOps_le (ops : List Op) (app : App)
    (h : app.historia.length ≤ 20) :
    (applyOps ops app).historia.length ≤ 20 := by
  induction ops generalizing app with
  | nil => exact h
  | cons o ops ih =>
    refine ih _ ?_
    cases o with
    | operacjaOp m =>
      simpa [applyOps, applyOp, operacja] using length_zapisz_stan_le app h
    | cofnijOp => simpa [applyOps, applyOp, historia_cofnij] using h
    | przywrocOp => simpa [applyOps, applyOp, historia_przywroc] using h

theorem dictLookup_nil (k : Nat) : dictLookup [] k = none := rfl

theorem dictLookup_cons (a : Nat) (v : Opis) (d : List (Nat × Opis)) (k : Nat) :
    dictLookup ((a, v) :: d) k = if a = k then some v else dictLookup d k := by
  rcases eq_or_ne a k with h | h <;> simp [dictLookup, List.find?_cons, h]

theorem dictLookup_delKey (d : List (Nat × Opis)) (k j : Nat) :
    dictLookup (delKey d k) j = if j = k then none else dictLookup d j := by
  induction d with
  | nil => simp [delKey, dictLookup_nil]
  | cons e d ih =>
    obtain ⟨a, v⟩ := e
    by_cases hak : a = k
    · have hdel : delKey ((a, v) :: d) k = delKey d k := by
        simp [delKey, List.filter_cons, hak]
      rw [hdel, ih, dictLookup_cons]
      by_cases hjk : j = k
      · simp [hjk]
      · have haj : ¬a = j := fun h => hjk (h ▸ hak)
        simp [hjk, haj]
    · have hdel : delKey ((a, v) :: d) k = (a, v) :: delKey d k := by
        simp [delKey, List.filter_cons, hak]
      rw [hdel, dictLookup_cons, dictLookup_cons, ih]
      by_cases haj : a = j
      · have hjk : ¬j = k := fun h => hak (haj.trans h)
        simp [haj, hjk]
      · simp [haj]

/-- Lookup in a dict built by a `for i in range(a, a + m)` loop that
inserts key `i` exactly when `f i` is present. -/
theorem dictLookup_rangeFrom (f : Nat → Option Opis) :
    ∀ (m a j : Nat),
      dictLookup ((List.range' a m).filterMap (fun i =>
        (f i).map (fun v => (i, v)))) j =
      if a ≤ j ∧ j < a + m then f j else none := by
  intro m
  induction m with
  | zero =>
    intro a j
    have hr : List.range' a 0 = [] := rfl
    rw [hr, List.filterMap_nil, dictLookup_nil, if_neg (by omega)]
  | succ m ih =>
    intro a j
    rw [List.range'_succ]
    rcases hfa : f a with _ | v
    · simp only [List.filterMap_cons, hfa, Option.map_none']
      rw [ih]
      rcases eq_or_ne j a with hj | hj
      · subst hj
        have h1 : ¬(j + 1 ≤ j ∧ j < j + 1 + m) := by omega
        have h2 : j ≤ j ∧ j < j + (m + 1) := by omega
        simp [h1, h2, hfa]
      · by_cases hrange : a + 1 ≤ j ∧ j < a + 1 + m
        · have h2 : a ≤ j ∧ j < a + (m + 1) := by omega
          simp [hrange, h2]
        · have h2 : ¬(a ≤ j ∧ j < a + (m + 1)) := by omega
          simp [hrange, h2]
    · simp only [List.filterMap_cons, hfa, Option.map_some']
      rw [dictLookup_cons, ih]
      rcases eq_or_ne a j with hj | hj
      · subst hj
        have h2 : a ≤ a ∧ a < a + (m + 1) := by omega
        simp [h2, hfa]
      · by_cases hrange : a + 1 ≤ j ∧ j < a + 1 + m
        · have h2 : a ≤ j ∧ j < a + (m + 1) := by omega
          simp [hj, hrange, h2]
        · have h2 : ¬(a ≤ j ∧ j < a + (m + 1)) := by omega
          simp [hj, hrange, h2]

theorem dictLookup_range (f : Nat → Option Opis) (m j : Nat) :
    dictLookup ((List.range m).filterMap (fun i =>
      (f i).map (fun v => (i, v)))) j =
    if j < m then f j else none := by
  rw [List.range_eq_range', dictLookup_rangeFrom]
  simp

/-- A demonstration state used by the concrete evaluations below. -/
def lDemo : Live :=
  { ilustracje := ["a.png", "b.png", "c.png"]
    opisy := [(0, ⟨"Krok 1", "pierwszy"⟩)]
    wybrany := some 0
    kod := "KOD-1"
    nazwa := "Nazwa"
    dataP := "2025-01-01"
    autor := "Autor"
    uklad := "lewo_prawo"
    rozmiar := "8"
    czcionka := "Arial"
    rozmiarCzcionki := "11"
    jezyk := "polski"
    darkTheme := false }

/-- A state whose history is already at capacity. -/
def app20 : App :=
  { live := lDemo
    historia := List.replicate 20 (snapshot lDemo)
    index := 19 }

/-- C3: the snapshot history is bounded at capacity 20: a push with the
history already holding 20 entries first removes the oldest entry and
then appends the new snapshot; along every sequence of operations from
a fresh controller the history length never exceeds 20; and after every
push the cursor points at the newly appended last snapshot. -/
theorem C3_snapshot_history_bounded :
    (∀ app : App, app.historia.length = 20 →
      (zapisz_stan app).historia =
        app.historia.drop 1 ++ [snapshot app.live]) ∧
    (∀ (l : Live) (ops : List Op),
      (applyOps ops (initApp l)).historia.length ≤ 20) ∧
    (∀ app : App,
      (zapisz_stan app).index =
        ((zapisz_stan app).historia.length : Int) - 1 ∧
      (zapisz_stan app).historia.getLast? = some (snapshot app.live)) := by
  refine ⟨?_, ?_, ?_⟩
  · intro app h
    have hge : app.historia.length ≥ maksHistoria := by
      simp [maksHistoria, h]
    simp [zapisz_stan, if_pos hge]
  · intro l ops
    refine length_applyOps_le ops _ ?_
    have h0 : ¬((List.length ([] : List Snap)) ≥ maksHistoria) := by
      simp [maksHistoria]
    simp [initApp, zapisz_stan, if_neg h0]
  · intro app
    exact ⟨rfl, by simp [zapisz_stan, List.getLast?_concat]⟩

/-- C3 witness: the capacity case at a concrete 20-entry history, a
concrete operation sequence, and the cursor facts at that history. -/
theorem C3_snapshot_history_bounded_witness :
    (zapisz_stan app20).historia =
      app20.historia.drop 1 ++ [snapshot app20.live] ∧
    (applyOps [Op.cofnijOp, Op.operacjaOp id] (initApp lDemo)).historia.length
      ≤ 20 ∧
    (zapisz_stan app20).index =
      ((zapisz_stan app20).historia.length : Int) - 1 ∧
    (zapisz_stan app20).historia.getLast? = some (snapshot app20.live) :=
  ⟨C3_snapshot_history_bounded.1 app20 (by simp [app20]),
   C3_snapshot_history_bounded.2.1 lDemo [Op.cofnijOp, Op.operacjaOp id],
   (C3_snapshot_history_bounded.2.2 app20).1,
   (C3_snapshot_history_bounded.2.2 app20).2⟩

/-- C10: a push appends the new snapshot at the end, removing nothing
but the oldest entry when at capacity, and sets the cursor to the last
position; every snapshot that lay strictly beyond the cursor (the redo
tail) is still present after the push. -/
theorem C10_push_preserves_redo_tail (app : App) (hidx : 0 ≤ app.index) :
    (zapisz_stan app).historia =
      (if app.historia.length ≥ maksHistoria then app.historia.drop 1
       else app.historia) ++ [snapshot app.live] ∧
    (zapisz_stan app).index =
      ((zapisz_stan app).historia.length : Int) - 1 ∧
    (∀ j : Nat, app.index < (j : Int) → j < app.historia.length →
      (zapisz_stan app).historia[
          (if app.historia.length ≥ maksHistoria then j - 1 else j)]? =
        app.historia[j]?) := by
  refine ⟨rfl, rfl, ?_⟩
  intro j h1 h2
  have hj1 : 1 ≤ j := by omega
  by_cases hc : app.historia.length ≥ maksHistoria
  · have hlt : j - 1 < (app.historia.drop 1).length := by
      simp only [List.length_drop]
      omega
    simp only [zapisz_stan, if_pos hc, hc, if_true]
    rw [List.getElem?_append, if_pos hlt, List.getElem?_drop]
    congr 1
    omega
  · have hlt : j < app.historia.length := h2
    simp only [zapisz_stan, if_neg hc, hc, if_false]
    rw [List.getElem?_append, if_pos hlt]

/-- C10 witness: concrete instance at a full history with the cursor
moved back by an undo. -/
theorem C10_push_preserves_redo_tail_witness :
    (0 : Int) ≤ (cofnij app20).index ∧
    ((cofnij app20).index < ((19 : Nat) : Int) →
      (19 : Nat) < (cofnij app20).historia.length →
      (zapisz_stan (cofnij app20)).historia[
          (if (cofnij app20).historia.length ≥ maksHistoria
           then (19 : Nat) - 1 else (19 : Nat))]? =
        (cofnij app20).historia[(19 : Nat)]?) := by
  refine ⟨by decide, ?_⟩
  exact (C10_push_preserves_redo_tail (cofnij app20) (by decide)).2.2 19

/-- C2 (divergence evaluation): after two consecutive operations that
each push a snapshot and then mutate, `cofnij` restores the state from
before the FIRST operation, not the values from before the last one,
and `przywroc` after `cofnij` restores the last pre-mutation snapshot,
not the state that was current before the undo. -/
theorem C2_undo_redo_divergence :
    (usun_ilustracje 0 (initApp lDemo)).live.ilustracje =
      ["b.png", "c.png"] ∧
    (usun_ilustracje 0 (usun_ilustracje 0 (initApp lDemo))).live.ilustracje =
      ["c.png"] ∧
    (cofnij
        (usun_ilustracje 0 (usun_ilustracje 0 (initApp lDemo)))).index =
      (usun_ilustracje 0 (usun_ilustracje 0 (initApp lDemo))).index - 1 ∧
    (cofnij
        (usun_ilustracje 0
          (usun_ilustracje 0 (initApp lDemo)))).live.ilustracje =
      ["a.png", "b.png", "c.png"] ∧
    (przywroc (cofnij
        (usun_ilustracje 0
          (usun_ilustracje 0 (initApp lDemo))))).live.ilustracje =
      ["b.png", "c.png"] := by
  decide

/-- C4 counterexample: the snapshot dict of `zapisz_stan` does not
include the layout/formatting options or the language, so undoing does
not restore them.  Concretely: after an operation pushes a snapshot
(layout `"lewo_prawo"` at push time) and the user then switches the
layout combo to `"gora"`, `cofnij` moves the cursor and restores the
snapshotted fields, yet the layout stays `"gora"`. -/
theorem C4_undo_does_not_restore_layout :
    lDemo.uklad = "lewo_prawo" ∧
    (cofnij (ustawUklad "gora" (usun_ilustracje 0 (initApp lDemo)))).index
      = 0 ∧
    (cofnij
        (ustawUklad "gora"
          (usun_ilustracje 0 (initApp lDemo)))).live.ilustracje =
      lDemo.ilustracje ∧
    (cofnij
        (ustawUklad "gora" (usun_ilustracje 0 (initApp lDemo)))).live.uklad =
      "gora" := by
  decide

/-- C4 amended: every history snapshot is a full copy of the
illustration list, the step descriptions, the selected step and the
code/name/date/author fields (not of the formatting options or the
language); undoing restores exactly those components and leaves
formatting and language at their current values; and later mutations of
the live state never alter a stored snapshot (the pushed history is
independent of the mutation that follows the push). -/
theorem C4_snapshot_copy_amended (app : App) (m : Live → Live) (s : Snap)
    (hidx : 0 < app.index)
    (hs : app.historia[(app.index - 1).toNat]? = some s) :
    (mutacjaLive m app).historia = app.historia ∧
    (operacja m app).historia = (zapisz_stan app).historia ∧
    ((cofnij app).live.ilustracje = s.ilustracje ∧
     (cofnij app).live.opisy = s.opisy ∧
     (cofnij app).live.wybrany = s.wybrany ∧
     (cofnij app).live.kod = s.kod ∧
     (cofnij app).live.nazwa = s.nazwa ∧
     (cofnij app).live.dataP = s.dataP ∧
     (cofnij app).live.autor = s.autor) ∧
    ((cofnij app).live.uklad = app.live.uklad ∧
     (cofnij app).live.rozmiar = app.live.rozmiar ∧
     (cofnij app).live.czcionka = app.live.czcionka ∧
     (cofnij app).live.rozmiarCzcionki = app.live.rozmiarCzcionki ∧
     (cofnij app).live.jezyk = app.live.jezyk ∧
     (cofnij app).live.darkTheme = app.live.darkTheme) := by
  have hgt : app.index > 0 := hidx
  have hs' : app.historia[app.index.toNat - 1]? = some s := by
    rw [← Int.pred_toNat]
    exact hs
  refine ⟨rfl, rfl, ?_, ?_⟩ <;>
    simp [cofnij, hgt, hs', wczytajStan]

/-- C4 amended, witness at a concrete reachable state. -/
theorem C4_snapshot_copy_amended_witness :
    (0 : Int) < (usun_ilustracje 0 (initApp lDemo)).index ∧
    ((cofnij (usun_ilustracje 0 (initApp lDemo))).live.ilustracje =
        (snapshot lDemo).ilustracje ∧
      (cofnij (usun_ilustracje 0 (initApp lDemo))).live.uklad =
        (usun_ilustracje 0 (initApp lDemo)).live.uklad) := by
  refine ⟨by decide, ?_, ?_⟩
  · exact (C4_snapshot_copy_amended (usun_ilustracje 0 (initApp lDemo)) id
      (snapshot lDemo) (by decide) (by decide)).2.2.1.1
  · exact (C4_snapshot_copy_amended (usun_ilustracje 0 (initApp lDemo)) id
      (snapshot lDemo) (by decide) (by decide)).2.2.2.1

/-- C8: deleting the selected step `k` shortens the illustration list
by one (removing exactly the `k`-th entry) and rebuilds the description
dict so that keys `< k` are unchanged, keys `> k` move down by one, and
every remaining key is a valid index into the shortened list (lookups
at or beyond the new length yield nothing). -/
theorem C8_usun_reindexes (app : App) (row : Int) (h0 : 0 ≤ row)
    (hk : row.toNat < app.live.ilustracje.length) :
    (usun_ilustracje row app).live.ilustracje =
      app.live.ilustracje.eraseIdx row.toNat ∧
    (usun_ilustracje row app).live.ilustracje.length =
      app.live.ilustracje.length - 1 ∧
    (∀ i : Nat, dictLookup (usun_ilustracje row app).live.opisy i =
      if i < app.live.ilustracje.length - 1 then
        (if row.toNat ≤ i then dictLookup app.live.opisy (i + 1)
         else dictLookup app.live.opisy i)
      else none) := by
  have hneg : ¬row < 0 := by omega
  have hlive : (usun_ilustracje row app).live =
      usunMutacja row.toNat app.live := by
    simp [usun_ilustracje, hneg, operacja, zapisz_stan]
  have hlen : (app.live.ilustracje.eraseIdx row.toNat).length =
      app.live.ilustracje.length - 1 := by
    rw [List.length_eraseIdx, if_pos hk]
  have hil : (usunMutacja row.toNat app.live).ilustracje =
      app.live.ilustracje.eraseIdx row.toNat := by
    simp [usunMutacja, hk]
  refine ⟨by rw [hlive, hil], by rw [hlive, hil, hlen], ?_⟩
  intro i
  rw [hlive]
  show dictLookup ((List.range
      (if row.toNat < app.live.ilustracje.length
       then app.live.ilustracje.eraseIdx row.toNat
       else app.live.ilustracje).length).filterMap _) i = _
  rw [if_pos hk, hlen, dictLookup_range]
  by_cases hi : i < app.live.ilustracje.length - 1
  · rw [if_pos hi, if_pos hi]
    by_cases hki : row.toNat ≤ i
    · rw [if_pos hki, if_pos hki, dictLookup_delKey,
        if_neg (by omega : ¬i + 1 = row.toNat)]
    · rw [if_neg hki, if_neg hki, dictLookup_delKey,
        if_neg (by omega : ¬i = row.toNat)]
  · rw [if_neg hi, if_neg hi]

/-- C8 witness: delete step 1 out of three concrete steps. -/
theorem C8_usun_reindexes_witness :
    (0 : Int) ≤ 1 ∧
    (1 : Int).toNat < (initApp lDemo).live.ilustracje.length ∧
    (usun_ilustracje 1 (initApp lDemo)).live.ilustracje =
      (initApp lDemo).live.ilustracje.eraseIdx (1 : Int).toNat ∧
    dictLookup (usun_ilustracje 1 (initApp lDemo)).live.opisy 0 =
      dictLookup (initApp lDemo).live.opisy 0 := by
  refine ⟨by decide, by decide,
    (C8_usun_reindexes (initApp lDemo) 1 (by decide) (by decide)).1, ?_⟩
  have h := (C8_usun_reindexes (initApp lDemo) 1 (by decide) (by decide)).2.2 0
  simpa using h

/-! ## Image resizing

`ImageResizerThread` (lines 90-153).  `resize_image` (lines 116-145)
and the helper `GeneratorDokumentow.resize_image` (lines 1231-1261) are
textually identical up to how an error is reported (console print
vs. warning dialog), so one embedding covers both. -/

/-- The 800 KB byte budget (`800 * 1024` in the code). -/
def maxRozmiar : Nat := 800 * 1024

/-- The pixel dimensions the imaging library reports for the opened
image (after the RGB conversion, which does not change them). -/
structure Obraz where
  width : Nat
  height : Nat
deriving DecidableEq, Repr

/-- Outcome of `resize_image`: either the original path is returned and
no new file is written, or a fresh temp file with the given dimensions
and encoded byte size is written and its path returned. -/
inductive ResizeResult where
  | original : ResizeResult
  | resized (w h rozmiarPliku : Nat) : ResizeResult
deriving DecidableEq, Repr

/-- `resize_image`, success path (lines 118-141): if the input file is
within the budget return the input path untouched; otherwise scale both
dimensions by `min(0.8, 800*1024 / file_size)` — Python float
arithmetic modelled as exact rational arithmetic, `int(...)` on a
nonnegative value as the floor — and save the result as JPEG quality
85.  The byte size of that save is whatever the external JPEG encoder
produces for the new dimensions; the code never checks it, so it is an
uninterpreted function `jpegSize`. -/
def resize_image (jpegSize : Nat → Nat → Nat) (fileSize : Nat)
    (img : Obraz) : ResizeResult :=
  if fileSize ≤ maxRozmiar then .original
  else
    let wsp : ℚ := min (4 / 5) ((maxRozmiar : ℚ) / (fileSize : ℚ))
    let newWidth := (Int.floor ((img.width : ℚ) * wsp)).toNat
    let newHeight := (Int.floor ((img.height : ℚ) * wsp)).toNat
    .resized newWidth newHeight (jpegSize newWidth newHeight)

/-- C5 counterexample: nothing in `resize_image` bounds the encoded
output size by the 800 KB threshold.  For an admissible encoder whose
output for the shrunk 1000x800 image is `maxRozmiar + 1` bytes, the
function still returns that oversized file. -/
theorem C5_output_can_exceed_threshold :
    maxRozmiar < 819201 ∧
    resize_image (fun _ _ => maxRozmiar + 1) 819201 ⟨1000, 800⟩ =
      ResizeResult.resized 800 640 (maxRozmiar + 1) ∧
    maxRozmiar < maxRozmiar + 1 := by
  refine ⟨by decide, ?_, by decide⟩
  simp only [resize_image, if_neg (by decide : ¬(819201 : Nat) ≤ maxRozmiar)]
  show ResizeResult.resized
      (Int.floor (((1000 : Nat) : ℚ) *
        min ((4 : ℚ) / 5) ((maxRozmiar : ℚ) / ((819201 : Nat) : ℚ)))).toNat
      (Int.floor (((800 : Nat) : ℚ) *
        min ((4 : ℚ) / 5) ((maxRozmiar : ℚ) / ((819201 : Nat) : ℚ)))).toNat
      (maxRozmiar + 1) =
    ResizeResult.resized 800 640 (maxRozmiar + 1)
  rw [min_eq_left (by rw [maxRozmiar]; push_cast; norm_num :
    (4 : ℚ) / 5 ≤ (maxRozmiar : ℚ) / ((819201 : Nat) : ℚ))]
  rw [show ((1000 : Nat) : ℚ) * ((4 : ℚ) / 5) = ((800 : ℤ) : ℚ) by norm_num,
    show ((800 : Nat) : ℚ) * ((4 : ℚ) / 5) = ((640 : ℤ) : ℚ) by norm_num,
    Int.floor_intCast, Int.floor_intCast]
  decide

/-- C5 amended: `resize_image` is a single-pass shrink.  At or below
the 800 KB budget it returns the original unchanged; above it, it
resizes once to `int(width*r) x int(height*r)` with
`r = min(0.8, 800*1024/file_size)` — never enlarging — and returns the
encoder's output of whatever size, without checking it against the
threshold. -/
theorem C5_resize_single_pass (jpegSize : Nat → Nat → Nat)
    (fileSize : Nat) (img : Obraz) :
    (fileSize ≤ maxRozmiar →
      resize_image jpegSize fileSize img = .original) ∧
    (maxRozmiar < fileSize →
      resize_image jpegSize fileSize img =
        .resized
          (Int.floor ((img.width : ℚ) *
            min (4 / 5) ((maxRozmiar : ℚ) / (fileSize : ℚ)))).toNat
          (Int.floor ((img.height : ℚ) *
            min (4 / 5) ((maxRozmiar : ℚ) / (fileSize : ℚ)))).toNat
          (jpegSize
            (Int.floor ((img.width : ℚ) *
              min (4 / 5) ((maxRozmiar : ℚ) / (fileSize : ℚ)))).toNat
            (Int.floor ((img.height : ℚ) *
              min (4 / 5) ((maxRozmiar : ℚ) / (fileSize : ℚ)))).toNat) ∧
      (Int.floor ((img.width : ℚ) *
        min (4 / 5) ((maxRozmiar : ℚ) / (fileSize : ℚ)))).toNat ≤
        img.width) := by
  constructor
  · intro h
    simp [resize_image, if_pos h]
  · intro h
    have hn : ¬fileSize ≤ maxRozmiar := by omega
    refine ⟨by simp [resize_image, if_neg hn], ?_⟩
    have hw1 : min ((4 : ℚ) / 5) ((maxRozmiar : ℚ) / (fileSize : ℚ)) ≤ 1 :=
      le_trans (min_le_left _ _) (by norm_num)
    have hmul : (img.width : ℚ) *
        min ((4 : ℚ) / 5) ((maxRozmiar : ℚ) / (fileSize : ℚ)) ≤
        (img.width : ℚ) := by
      calc (img.width : ℚ) * min ((4 : ℚ) / 5)
            ((maxRozmiar : ℚ) / (fileSize : ℚ))
          ≤ (img.width : ℚ) * 1 := by
            exact mul_le_mul_of_nonneg_left hw1 (by positivity)
        _ = (img.width : ℚ) := mul_one _
    have hfl := Int.floor_le_floor hmul
    rw [Int.floor_natCast] at hfl
    have := Int.toNat_le_toNat hfl
    simpa using this

/-- C5 amended, witness: a 1 MB file shrinks by the capped factor
`0.8`. -/
theorem C5_resize_single_pass_witness :
    maxRozmiar < 819201 ∧
    resize_image (fun _ _ => 100) 819201 ⟨1000, 800⟩ =
      ResizeResult.resized 800 640 100 := by
  refine ⟨by decide, ?_⟩
  have h := (C5_resize_single_pass (fun _ _ => 100) 819201 ⟨1000, 800⟩).2
    (by decide)
  rw [h.1]
  show ResizeResult.resized
      (Int.floor (((1000 : Nat) : ℚ) *
        min ((4 : ℚ) / 5) ((maxRozmiar : ℚ) / ((819201 : Nat) : ℚ)))).toNat
      (Int.floor (((800 : Nat) : ℚ) *
        min ((4 : ℚ) / 5) ((maxRozmiar : ℚ) / ((819201 : Nat) : ℚ)))).toNat
      100 =
    ResizeResult.resized 800 640 100
  rw [min_eq_left (by rw [maxRozmiar]; push_cast; norm_num :
    (4 : ℚ) / 5 ≤ (maxRozmiar : ℚ) / ((819201 : Nat) : ℚ))]
  rw [show ((1000 : Nat) : ℚ) * ((4 : ℚ) / 5) = ((800 : ℤ) : ℚ) by norm_num,
    show ((800 : Nat) : ℚ) * ((4 : ℚ) / 5) = ((640 : ℤ) : ℚ) by norm_num,
    Int.floor_intCast, Int.floor_intCast]
  decide

/-- The fallible body of the `try` in `resize_image` (the imaging and
file-system calls): `some q` is a successful run returning path `q`,
`none` models an exception escaping the body.  The `except` branch
(lines 143-145) returns the input path unchanged. -/
def resize_imageSafe (attempt : Path → Option Path) (p : Path) : Path :=
  match attempt p with
  | some q => q
  | none => p

/-- `ImageResizerThread.run` (lines 100-114): iterate over the input
paths in order; per path append the processing result — `run`'s own
`try/except` appends the original path if an exception escapes, which
coincides with `resize_image`'s internal fallback, so one fallible
layer models both — and emit one `progress(i + 1, total, basename)`
signal; finally emit the processed list.  The two emitted streams are
returned in emission order. -/
def runThread (attempt : Path → Option Path) (basename : Path → Str)
    (paths : List Path) : List Path × List (Nat × Nat × Str) :=
  (paths.map (resize_imageSafe attempt),
   paths.enum.map (fun e => (e.1 + 1, paths.length, basename e.2)))

/-- C6: a failed resize falls back to the original file: if processing
the `i`-th path raises, that path itself ends up at position `i` of the
result; every other position still holds its own processing result;
and `resize_image` returns its unmodified input when it catches an
error. -/
theorem C6_failed_resize_falls_back (attempt : Path → Option Path)
    (bn : Path → Str) (paths : List Path) (i : Nat) (p : Path)
    (hp : paths[i]? = some p) (hfail : attempt p = none) :
    (runThread attempt bn paths).1[i]? = some p ∧
    (runThread attempt bn paths).1.length = paths.length ∧
    (∀ (j : Nat) (q : Path), paths[j]? = some q →
      (runThread attempt bn paths).1[j]? =
        some (resize_imageSafe attempt q)) ∧
    resize_imageSafe attempt p = p := by
  have hval : resize_imageSafe attempt p = p := by
    simp [resize_imageSafe, hfail]
  refine ⟨?_, by simp [runThread], ?_, hval⟩
  · simp [runThread, List.getElem?_map, hp, hval]
  · intro j q hq
    simp [runThread, List.getElem?_map, hq]

/-- C6 witness: a two-element batch whose first path fails. -/
theorem C6_failed_resize_falls_back_witness :
    (["x.png", "y.png"] : List Path)[0]? = some "x.png" ∧
    (runThread (fun p => if p = "y.png" then some "t.jpg" else none)
        (fun p => p) ["x.png", "y.png"]).1[0]? = some "x.png" ∧
    (runThread (fun p => if p = "y.png" then some "t.jpg" else none)
        (fun p => p) ["x.png", "y.png"]).1.length = 2 := by
  have h := C6_failed_resize_falls_back
    (fun p => if p = "y.png" then some "t.jpg" else none)
    (fun p => p) ["x.png", "y.png"] 0 "x.png" (by decide) (by decide)
  exact ⟨by decide, h.1, h.2.1⟩

/-- C7: the background resizer processes images in input order: the
result list has one entry per input, its `i`-th element being the
processing result of the `i`-th input, and the progress callback fires
once per input carrying the counters `1, 2, ..., n` in order. -/
theorem C7_run_processes_in_order (attempt : Path → Option Path)
    (bn : Path → Str) (paths : List Path) :
    (runThread attempt bn paths).1.length = paths.length ∧
    (∀ (i : Nat) (p : Path), paths[i]? = some p →
      (runThread attempt bn paths).1[i]? =
        some (resize_imageSafe attempt p)) ∧
    (runThread attempt bn paths).2.length = paths.length ∧
    (runThread attempt bn paths).2.map (fun t => t.1) =
      List.range' 1 paths.length ∧
    (∀ (i : Nat) (p : Path), paths[i]? = some p →
      (runThread attempt bn paths).2[i]? =
        some (i + 1, paths.length, bn p)) := by
  refine ⟨by simp [runThread], ?_, by simp [runThread, List.enum_length],
    ?_, ?_⟩
  · intro i p hp
    simp [runThread, List.getElem?_map, hp]
  · show (paths.enum.map
        (fun e => (e.1 + 1, paths.length, bn e.2))).map (fun t => t.1) =
      List.range' 1 paths.length
    rw [List.map_map]
    have h1 : ((fun t : Nat × Nat × Str => t.1) ∘
        (fun e : Nat × Path => (e.1 + 1, paths.length, bn e.2))) =
        ((fun x => x + 1) ∘ Prod.fst) := rfl
    rw [h1, ← List.map_map, List.enum_map_fst, List.range'_eq_map_range]
    exact List.map_congr_left (fun x _ => Nat.add_comm x 1)
  · intro i p hp
    simp [runThread, List.getElem?_map, List.getElem?_enum, hp]

/-- C7 witness: a concrete three-element batch. -/
theorem C7_run_processes_in_order_witness :
    (runThread (fun p => some (p ++ ".jpg")) (fun p => p)
        ["a", "b", "c"]).1.length = 3 ∧
    (runThread (fun p => some (p ++ ".jpg")) (fun p => p)
        ["a", "b", "c"]).2.map (fun t => t.1) = [1, 2, 3] ∧
    (runThread (fun p => some (p ++ ".jpg")) (fun p => p)
        ["a", "b", "c"]).1[1]? = some "b.jpg" := by
  have h := C7_run_processes_in_order (fun p => some (p ++ ".jpg"))
    (fun p => p) ["a", "b", "c"]
  refine ⟨h.1, ?_, ?_⟩
  · rw [h.2.2.2.1]
    decide
  · have := h.2.1 1 "b" (by decide)
    simpa [resize_imageSafe] using this

/-! ## Project persistence

`zapisz_projekt` (lines 1946-2007), `wczytaj_projekt` (lines
2009-2087), `autozapisz_projekt` (lines 2153-2221).  The JSON document
is modelled structurally (`Projekt`); `json.dump`/`json.load`
round-trip the structure by construction. -/

/-- The fixed item data of `layout_combo` (lines 603-606). -/
def layoutOptions : List Str := ["lewo_prawo", "gora", "dol"]

/-- The fixed items of `size_combo` (line 614). -/
def sizeOptions : List Str := ["2", "3", "5", "6", "8", "10", "12"]

/-- The fixed items of `font_combo` (line 623). -/
def fontOptions : List Str :=
  ["Arial", "Times New Roman", "Calibri", "Verdana"]

/-- The fixed items of `font_size_combo` (line 632). -/
def fontSizeOptions : List Str := ["9", "10", "11", "12", "14", "16"]

/-- The `ustawienia` sub-object of the project JSON. -/
structure Ustawienia where
  uklad : Str
  rozmiar : Str
  czcionka : Str
  rozmiarCzcionki : Str
  jezyk : Str
  darkTheme : Bool
deriving DecidableEq, Repr

/-- One entry of the `obrazy` JSON object: the image's basename and its
base64-encoded bytes. -/
structure ObrazZapis where
  nazwa : Str
  dane : List Nat
deriving DecidableEq, Repr

/-- The project JSON document.  (`autozapisz_projekt` additionally
writes a `timestamp_autosave` field, irrelevant to loading; the
`tlumaczenia` table is UI translation data and carried verbatim.) -/
structure Projekt where
  kod : Str
  nazwa : Str
  dataP : Str
  autor : Str
  obrazy : List (List Nat × ObrazZapis)
  opisyKrokow : List (List Nat × Opis)
  ustawienia : Ustawienia
deriving DecidableEq, Repr

/-- Dict lookup keyed by stringified indices (digit lists). -/
def dictFindD (d : List (List Nat × ObrazZapis)) (k : List Nat) :
    Option ObrazZapis :=
  (d.find? (fun e => e.1 == k)).map Prod.snd

/-- The `for i, sciezka_img in enumerate(self.ilustracje)` loop of
`zapisz_projekt` (lines 1963-1975) and `autozapisz_projekt` (lines
2172-2185), started at index `off`: read each file, store its basename
and base64 bytes under the stringified index; a file that cannot be
read is skipped (warning dialog resp. bare `continue`). -/
def mkObrazyOd (rf : Path → Option Bytes) (bn : Path → Str) :
    Nat → List Path → List (List Nat × ObrazZapis)
  | _, [] => []
  | off, p :: ps =>
    (match rf p with
     | some bs => [(pyStr off, ⟨bn p, b64encode bs⟩)]
     | none => []) ++ mkObrazyOd rf bn (off + 1) ps

def mkObrazy (rf : Path → Option Bytes) (bn : Path → Str)
    (ps : List Path) : List (List Nat × ObrazZapis) :=
  mkObrazyOd rf bn 0 ps

/-- The project dict built by `zapisz_projekt` (lines 1981-1997) and,
identically, by `autozapisz_projekt` (lines 2191-2208): metadata from
the line edits, the embedded images, the step descriptions under
stringified keys, and the current formatting/language/theme. -/
def zbudujProjekt (rf : Path → Option Bytes) (bn : Path → Str)
    (l : Live) : Projekt :=
  { kod := l.kod
    nazwa := l.nazwa
    dataP := l.dataP
    autor := l.autor
    obrazy := mkObrazy rf bn l.ilustracje
    opisyKrokow := l.opisy.map (fun e => (pyStr e.1, e.2))
    ustawienia :=
      { uklad := l.uklad
        rozmiar := l.rozmiar
        czcionka := l.czcionka
        rozmiarCzcionki := l.rozmiarCzcionki
        jezyk := l.jezyk
        darkTheme := l.darkTheme } }

/-- `zapisz_projekt`: early return (with a warning dialog) when there
are no illustrations, otherwise write the project document. -/
def zapisz_projekt (rf : Path → Option Bytes) (bn : Path → Str)
    (l : Live) : Option Projekt :=
  if l.ilustracje.isEmpty then none
  else some (zbudujProjekt rf bn l)

/-- `autozapisz_projekt`: early return when there are no illustrations
or autosave is disabled; otherwise write the same document (plus a
timestamp).  The per-image `os.path.exists` check and `try`/`continue`
are the `none` case of `rf`. -/
def autozapisz_projekt (rf : Path → Option Bytes) (bn : Path → Str)
    (enabled : Bool) (l : Live) : Option Projekt :=
  if l.ilustracje.isEmpty || !enabled then none
  else some (zbudujProjekt rf bn l)

/-- The fresh temp path `loaded_{i}_{nazwa}` that `wczytaj_projekt`
writes the `i`-th decoded image to (line 2039). -/
def loadedPath (i : Nat) (nazwa : Str) : Path :=
  "loaded_" ++ Nat.repr i ++ "_" ++ nazwa

/-- `wczytaj_projekt` without the dialogs and the final history reset:
restore the metadata fields; for `i in range(len(obrazy))` decode the
entry under key `str(i)` (if present) to a fresh temp file and collect
those paths as the new illustration list; restore the descriptions
under integer keys; restore the formatting combos (`findData` /
`setCurrentText` only change a combo when the value is among its fixed
items) and the language and theme directly.  Returns the new live
state together with the written `(path, bytes)` files in write
order. -/
def wczytaj_projekt (proj : Projekt) (l : Live) :
    Live × List (Path × Bytes) :=
  let written := (List.range proj.obrazy.length).filterMap (fun i =>
    (dictFindD proj.obrazy (pyStr i)).map
      (fun od => (loadedPath i od.nazwa, b64decode od.dane)))
  ({ l with
      kod := proj.kod
      nazwa := proj.nazwa
      dataP := proj.dataP
      autor := proj.autor
      ilustracje := written.map Prod.fst
      opisy := proj.opisyKrokow.map (fun e => (pyInt e.1, e.2))
      uklad :=
        if layoutOptions.contains proj.ustawienia.uklad then
          proj.ustawienia.uklad
        else l.uklad
      rozmiar :=
        if sizeOptions.contains proj.ustawienia.rozmiar then
          proj.ustawienia.rozmiar
        else l.rozmiar
      czcionka :=
        if fontOptions.contains proj.ustawienia.czcionka then
          proj.ustawienia.czcionka
        else l.czcionka
      rozmiarCzcionki :=
        if fontSizeOptions.contains proj.ustawienia.rozmiarCzcionki then
          proj.ustawienia.rozmiarCzcionki
        else l.rozmiarCzcionki
      jezyk := proj.ustawienia.jezyk
      darkTheme := proj.ustawienia.darkTheme },
   written)

theorem dictFindD_nil (k : List Nat) : dictFindD [] k = none := rfl

theorem dictFindD_cons (a : List Nat) (v : ObrazZapis)
    (d : List (List Nat × ObrazZapis)) (k : List Nat) :
    dictFindD ((a, v) :: d) k = if a = k then some v else dictFindD d k := by
  rcases eq_or_ne a k with h | h <;> simp [dictFindD, List.find?_cons, h]

/-- Keys produced from offset `off` onward are all `≥ off`. -/
theorem dictFindD_mkObrazyOd_lt (rf : Path → Option Bytes)
    (bn : Path → Str) :
    ∀ (ps : List Path) (off j : Nat), j < off →
      dictFindD (mkObrazyOd rf bn off ps) (pyStr j) = none := by
  intro ps
  induction ps with
  | nil => intro off j _; rfl
  | cons p ps ih =>
    intro off j hj
    simp only [mkObrazyOd]
    rcases hrf : rf p with _ | bs
    · simpa using ih (off + 1) j (by omega)
    · have hne : ¬pyStr off = pyStr j := fun h => by
        have := pyStr_injective h
        omega
      rw [List.singleton_append, dictFindD_cons, if_neg hne]
      exact ih (off + 1) j (by omega)

/-- Looking up the stringified index `off + i` in the image dict built
from offset `off` finds exactly the `i`-th path's entry (present iff
that file was readable). -/
theorem dictFindD_mkObrazyOd (rf : Path → Option Bytes)
    (bn : Path → Str) :
    ∀ (ps : List Path) (off i : Nat) (p : Path), ps[i]? = some p →
      dictFindD (mkObrazyOd rf bn off ps) (pyStr (off + i)) =
        (rf p).map (fun bs => ⟨bn p, b64encode bs⟩) := by
  intro ps
  induction ps with
  | nil => intro off i p hp; simp at hp
  | cons q ps ih =>
    intro off i p hp
    simp only [mkObrazyOd]
    cases i with
    | zero =>
      have hq : q = p := by simpa using hp
      subst hq
      rcases hrf : rf q with _ | bs
      · simpa using dictFindD_mkObrazyOd_lt rf bn ps (off + 1) (off + 0)
          (by omega)
      · rw [List.singleton_append, dictFindD_cons, if_pos (by rw [Nat.add_zero])]
        simp
    | succ i =>
      have hp' : ps[i]? = some p := by simpa using hp
      have hkey : off + (i + 1) = (off + 1) + i := by omega
      rcases hrf : rf q with _ | bs
      · simpa [hkey] using ih (off + 1) i p hp'
      · have hne : ¬pyStr off = pyStr (off + (i + 1)) := fun h => by
          have := pyStr_injective h
          omega
        rw [List.singleton_append, dictFindD_cons, if_neg hne, hkey]
        exact ih (off + 1) i p hp'

theorem dictFindD_mkObrazy (rf : Path → Option Bytes) (bn : Path → Str)
    (ps : List Path) (i : Nat) (p : Path) (hp : ps[i]? = some p) :
    dictFindD (mkObrazy rf bn ps) (pyStr i) =
      (rf p).map (fun bs => ⟨bn p, b64encode bs⟩) := by
  have h := dictFindD_mkObrazyOd rf bn ps 0 i p hp
  rwa [Nat.zero_add] at h

/-- When every file is readable the image dict has one entry per
illustration. -/
theorem length_mkObrazyOd (rf : Path → Option Bytes) (bn : Path → Str) :
    ∀ (ps : List Path) (off : Nat), (∀ p ∈ ps, (rf p).isSome) →
      (mkObrazyOd rf bn off ps).length = ps.length := by
  intro ps
  induction ps with
  | nil => intro off _; rfl
  | cons p ps ih =>
    intro off h
    have hp : (rf p).isSome := h p (by simp)
    rcases hrf : rf p with _ | bs
    · rw [hrf] at hp; simp at hp
    · simp only [mkObrazyOd, hrf, List.singleton_append, List.length_cons]
      rw [ih (off + 1) (fun q hq => h q (by simp [hq]))]

/-- A `filterMap` over `range n` whose function is everywhere `some` is
a `map`. -/
theorem filterMap_range_eq_map {β : Type} (n : Nat) (f : Nat → Option β)
    (g : Nat → β) (h : ∀ i < n, f i = some (g i)) :
    (List.range n).filterMap f = (List.range n).map g := by
  induction n with
  | zero => rfl
  | succ n ih =>
    rw [List.range_succ, List.filterMap_append, List.map_append,
      ih (fun i hi => h i (by omega))]
    simp [h n (by omega)]

/-- Reading a list back through `getD` over its index range is the
list itself. -/
theorem range_map_getD {α β : Type} (l : List α) (d : α) (f : α → β) :
    (List.range l.length).map (fun i => f (l.getD i d)) = l.map f := by
  induction l with
  | nil => rfl
  | cons a t ih =>
    rw [List.length_cons, List.range_succ_eq_map, List.map_cons,
      List.map_map]
    have h1 : ((fun i => f ((a :: t).getD i d)) ∘ Nat.succ) =
        (fun i => f (t.getD i d)) := rfl
    rw [h1, ih]
    rfl

/-- C9: with at least one step and autosave enabled, the autosave
completes and writes the metadata, all step descriptions (under
stringified keys) and the settings; every readable image contributes
its entry and every unreadable image's entry is simply omitted (its
lookup yields nothing), without aborting the save. -/
theorem C9_autosave_skips_unreadable (rf : Path → Option Bytes)
    (bn : Path → Str) (l : Live) (hne : l.ilustracje ≠ []) :
    ∃ proj, autozapisz_projekt rf bn true l = some proj ∧
      proj.kod = l.kod ∧ proj.nazwa = l.nazwa ∧ proj.dataP = l.dataP ∧
      proj.autor = l.autor ∧
      proj.opisyKrokow = l.opisy.map (fun e => (pyStr e.1, e.2)) ∧
      proj.ustawienia = ⟨l.uklad, l.rozmiar, l.czcionka,
        l.rozmiarCzcionki, l.jezyk, l.darkTheme⟩ ∧
      (∀ (i : Nat) (p : Path), l.ilustracje[i]? = some p →
        dictFindD proj.obrazy (pyStr i) =
          (rf p).map (fun bs => ⟨bn p, b64encode bs⟩)) := by
  have hni : l.ilustracje.isEmpty = false := by
    rcases hl : l.ilustracje with _ | ⟨a, t⟩
    · exact absurd hl hne
    · rfl
  refine ⟨zbudujProjekt rf bn l, ?_, rfl, rfl, rfl, rfl, rfl, rfl, ?_⟩
  · simp [autozapisz_projekt, hni]
  · intro i p hp
    exact dictFindD_mkObrazy rf bn l.ilustracje i p hp

/-- C9 witness: two steps, the second image unreadable; the autosave
still writes the document with exactly the first image embedded. -/
theorem C9_autosave_skips_unreadable_witness :
    lDemo.ilustracje ≠ [] ∧
    (∃ proj,
      autozapisz_projekt
          (fun p => if p = "a.png" then some [7, 8] else none)
          (fun p => p) true lDemo = some proj ∧
      proj.kod = lDemo.kod ∧
      dictFindD proj.obrazy (pyStr 0) = some ⟨"a.png", b64encode [7, 8]⟩ ∧
      dictFindD proj.obrazy (pyStr 1) = none) := by
  refine ⟨by decide, ?_⟩
  obtain ⟨proj, h1, h2, _, _, _, _, _, h8⟩ :=
    C9_autosave_skips_unreadable
      (fun p => if p = "a.png" then some [7, 8] else none)
      (fun p => p) lDemo (by decide)
  refine ⟨proj, h1, h2, ?_, ?_⟩
  · have := h8 0 "a.png" (by decide)
    simpa using this
  · have := h8 1 "b.png" (by decide)
    simpa using this

/-- C1: project save/load round-trip.  For a state with at least one
step, every image readable (with byte contents) and the combo values
among their fixed items (true of every state the UI can produce),
saving and then loading the written document restores the metadata
fields, the step descriptions (stringified keys back to integer keys),
the formatting options and the language, and writes fresh temp files
whose byte contents are the original images' bytes in the original
order, which become the new illustration list. -/
theorem C1_project_roundtrip (rf : Path → Option Bytes) (bn : Path → Str)
    (cont : Path → Bytes) (l lcur : Live)
    (hne : l.ilustracje ≠ [])
    (hread : ∀ p ∈ l.ilustracje, rf p = some (cont p))
    (hbytes : ∀ p ∈ l.ilustracje, ∀ b ∈ cont p, b < 256)
    (hukl : layoutOptions.contains l.uklad = true)
    (hroz : sizeOptions.contains l.rozmiar = true)
    (hcz : fontOptions.contains l.czcionka = true)
    (hrcz : fontSizeOptions.contains l.rozmiarCzcionki = true) :
    ∃ proj, zapisz_projekt rf bn l = some proj ∧
      (wczytaj_projekt proj lcur).1.kod = l.kod ∧
      (wczytaj_projekt proj lcur).1.nazwa = l.nazwa ∧
      (wczytaj_projekt proj lcur).1.dataP = l.dataP ∧
      (wczytaj_projekt proj lcur).1.autor = l.autor ∧
      (wczytaj_projekt proj lcur).1.opisy = l.opisy ∧
      (wczytaj_projekt proj lcur).1.uklad = l.uklad ∧
      (wczytaj_projekt proj lcur).1.rozmiar = l.rozmiar ∧
      (wczytaj_projekt proj lcur).1.czcionka = l.czcionka ∧
      (wczytaj_projekt proj lcur).1.rozmiarCzcionki = l.rozmiarCzcionki ∧
      (wczytaj_projekt proj lcur).1.jezyk = l.jezyk ∧
      (wczytaj_projekt proj lcur).1.darkTheme = l.darkTheme ∧
      (wczytaj_projekt proj lcur).2.map Prod.snd = l.ilustracje.map cont ∧
      (wczytaj_projekt proj lcur).1.ilustracje =
        (wczytaj_projekt proj lcur).2.map Prod.fst ∧
      (wczytaj_projekt proj lcur).2.length = l.ilustracje.length := by
  have hni : l.ilustracje.isEmpty = false := by
    rcases hl : l.ilustracje with _ | ⟨a, t⟩
    · exact absurd hl hne
    · rfl
  have hreadable : ∀ p ∈ l.ilustracje, (rf p).isSome := fun p hp => by
    rw [hread p hp]; rfl
  have hlen : (mkObrazy rf bn l.ilustracje).length = l.ilustracje.length :=
    length_mkObrazyOd rf bn l.ilustracje 0 hreadable
  have hlook : ∀ i, i < l.ilustracje.length →
      (dictFindD (mkObrazy rf bn l.ilustracje) (pyStr i)).map
        (fun od => (loadedPath i od.nazwa, b64decode od.dane)) =
      some (loadedPath i (bn (l.ilustracje.getD i "")),
        cont (l.ilustracje.getD i "")) := by
    intro i hi
    have hget : l.ilustracje.getD i "" = l.ilustracje[i] :=
      List.getD_eq_getElem l.ilustracje "" hi
    have hpi : l.ilustracje[i]? = some (l.ilustracje.getD i "") := by
      rw [List.getElem?_eq_getElem hi, hget]
    have hmem : l.ilustracje.getD i "" ∈ l.ilustracje := by
      rw [hget]; exact List.getElem_mem hi
    rw [dictFindD_mkObrazy rf bn l.ilustracje i _ hpi, hread _ hmem]
    simp only [Option.map_some']
    rw [b64decode_b64encode _ (hbytes _ hmem)]
  have hwr : (wczytaj_projekt (zbudujProjekt rf bn l) lcur).2 =
      (List.range l.ilustracje.length).map (fun i =>
        (loadedPath i (bn (l.ilustracje.getD i "")),
          cont (l.ilustracje.getD i ""))) := by
    show (List.range (mkObrazy rf bn l.ilustracje).length).filterMap
        (fun i => (dictFindD (mkObrazy rf bn l.ilustracje) (pyStr i)).map
          (fun od => (loadedPath i od.nazwa, b64decode od.dane))) = _
    rw [hlen]
    exact filterMap_range_eq_map l.ilustracje.length _ _
      (fun i hi => hlook i hi)
  have hopisy : ((l.opisy.map (fun e => (pyStr e.1, e.2))).map
      (fun e => (pyInt e.1, e.2))) = l.opisy := by
    rw [List.map_map]
    have h1 : ∀ e ∈ l.opisy,
        ((fun e : List Nat × Opis => (pyInt e.1, e.2)) ∘
          (fun e : Nat × Opis => (pyStr e.1, e.2))) e = id e := by
      intro e _
      simp [Function.comp, pyInt_pyStr]
    rw [List.map_congr_left h1, List.map_id]
  refine ⟨zbudujProjekt rf bn l, by simp [zapisz_projekt, hni],
    rfl, rfl, rfl, rfl, ?_, ?_, ?_, ?_, ?_, rfl, rfl, ?_, rfl, ?_⟩
  · exact hopisy
  · show (if layoutOptions.contains l.uklad then l.uklad else lcur.uklad)
      = l.uklad
    rw [hukl, if_pos rfl]
  · show (if sizeOptions.contains l.rozmiar then l.rozmiar
      else lcur.rozmiar) = l.rozmiar
    rw [hroz, if_pos rfl]
  · show (if fontOptions.contains l.czcionka then l.czcionka
      else lcur.czcionka) = l.czcionka
    rw [hcz, if_pos rfl]
  · show (if fontSizeOptions.contains l.rozmiarCzcionki then
      l.rozmiarCzcionki else lcur.rozmiarCzcionki) = l.rozmiarCzcionki
    rw [hrcz, if_pos rfl]
  · rw [hwr, List.map_map]
    have hcomp : (Prod.snd ∘ (fun i =>
        (loadedPath i (bn (l.ilustracje.getD i "")),
          cont (l.ilustracje.getD i "")))) =
        (fun i => cont (l.ilustracje.getD i "")) := rfl
    rw [hcomp, range_map_getD]
  · rw [hwr]
    simp

/-- A one-step demonstration state. -/
def lJeden : Live :=
  { lDemo with ilustracje := ["img.png"], opisy := [(0, ⟨"Krok", "opis"⟩)] }

/-- C1 witness: a one-step project with concrete bytes round-trips. -/
theorem C1_project_roundtrip_witness :
    (∃ proj,
      zapisz_projekt (fun _ => some [5, 255, 0, 7]) (fun p => p)
          lJeden = some proj ∧
      (wczytaj_projekt proj lDemo).1.kod = lJeden.kod ∧
      (wczytaj_projekt proj lDemo).1.opisy = lJeden.opisy ∧
      (wczytaj_projekt proj lDemo).1.uklad = lJeden.uklad ∧
      (wczytaj_projekt proj lDemo).2.map Prod.snd =
        lJeden.ilustracje.map (fun _ => [5, 255, 0, 7])) := by
  obtain ⟨proj, h1, h2, _, _, _, h6, h7, _, _, _, _, _, h13, _, _⟩ :=
    C1_project_roundtrip (fun _ => some [5, 255, 0, 7]) (fun p => p)
      (fun _ => [5, 255, 0, 7]) lJeden lDemo
      (by decide)
      (fun p _ => rfl)
      (fun p _ => by
        show ∀ b ∈ ([5, 255, 0, 7] : Bytes), b < 256
        decide)
      (by decide) (by decide) (by decide) (by decide)
  exact ⟨proj, h1, h2, h6, h7, h13⟩

end Piorun
